import Mathlib

/-!
Shallow embedding of the litert/observable.js library (EventEmitter from
src/lib/Events/Common.ts and FilterManager from src/lib/Filters/FilterManager.ts),
together with theorems settling the specification claims.

Modelling conventions:
* JavaScript objects used as string-keyed tables are modelled as insertion
  ordered association lists (`alookup` finds the value of a key, `aset`
  replaces the value of an existing key in place or appends a new key at the
  end, matching JS property creation order).
* A listener callback is identity-compared in the source (`===` on the
  function reference); it is modelled as a value `Cb` carrying a numeric
  identity and a first-order behaviour: on invocation it either returns
  normally (recording whether the returned value is exactly `false`, the only
  aspect of a return value the dispatcher inspects) or throws a value.
* Thrown values and event payload arguments are modelled as `Nat`.
* A `throw` is modelled with `Except`: operations that can raise return the
  post-call state together with an `Option` error (registration) or an
  `Except` result (`emit`), because the source mutates state before some
  throws, so the state at the moment of the throw is observable.
* `emit` additionally returns a trace of listener invocations (event name,
  callback identity, argument list, in order) so that dispatch order,
  skipping, and the payload of escalated `"error"` emissions are observable.
-/

namespace Obs

/-- Result of invoking one listener callback: a normal return (recording
whether the returned value is exactly `false`) or a thrown value. -/
inductive CbRes where
  | ret (returnsFalse : Bool)
  | thrw (e : Nat)
deriving DecidableEq

/-- A callback reference: `id` models JS reference identity, `behavior` is
what one invocation of the function does. -/
structure Cb where
  id : Nat
  behavior : CbRes
deriving DecidableEq

/-- Mirrors class `ListenerInfo` of Events.ts: a callback plus its once flag. -/
structure ListenerInfo where
  callback : Cb
  once : Bool
deriving DecidableEq

/-- Mirrors interface `IConfiguration` of Events/Common.ts. -/
structure IConfiguration where
  interruptable : Bool
  continueOnError : Bool
  maxListeners : Nat
deriving DecidableEq

/-- Mirrors `DEFAULT_CONFIGURATION` of Events.ts. -/
def DEFAULT_CONFIGURATION : IConfiguration :=
  { interruptable := false, continueOnError := false, maxListeners := 10 }

/-- A `Partial<IConfiguration>` value: each field optionally present. -/
structure PartialConfiguration where
  interruptable : Option Bool
  continueOnError : Option Bool
  maxListeners : Option Nat
deriving DecidableEq

/-- Mirrors the JS spread merge of a full configuration with a partial one,
as in the expression that merges two config objects: present fields of the
partial override the base. -/
def mergeConfig (c : IConfiguration) (p : PartialConfiguration) : IConfiguration :=
  { interruptable := p.interruptable.getD c.interruptable
    continueOnError := p.continueOnError.getD c.continueOnError
    maxListeners := p.maxListeners.getD c.maxListeners }

/-- Mirrors class `EventInfo` of Events.ts: per-event configuration and the
ordered queue of listeners. -/
structure EventInfo where
  config : IConfiguration
  listeners : List ListenerInfo
deriving DecidableEq

/-- Lookup in a string-keyed association list (a JS object property read). -/
def alookup {α : Type} : List (String × α) → String → Option α
  | [], _ => none
  | (k, v) :: rest, key => if k = key then some v else alookup rest key

/-- Write to a string-keyed association list (a JS object property write):
replaces an existing key in place, otherwise appends at the end, preserving
JS property insertion order. -/
def aset {α : Type} : List (String × α) → String → α → List (String × α)
  | [], key, v => [(key, v)]
  | (k, w) :: rest, key, v =>
    if k = key then (key, v) :: rest else (k, w) :: aset rest key v

/-- Mirrors class `EventEmitter` of Events.ts: the global configuration
(`P_CONFIG`) and the event table (`P_EVENT_SLOTS`). -/
structure EventEmitter where
  config : IConfiguration
  slots : List (String × EventInfo)
deriving DecidableEq

/-- Error kinds thrown by the event module. -/
inductive EventsError where
  | E_EXCEED_MAX_LISTENERS
deriving DecidableEq

/-- Mirrors the `EventEmitter` constructor: event table empty, global config
is the default merged with an optional partial override. -/
def EventEmitter.mkNew (p : Option PartialConfiguration) : EventEmitter :=
  { config :=
      match p with
      | none => DEFAULT_CONFIGURATION
      | some p => mergeConfig DEFAULT_CONFIGURATION p
    slots := [] }

/-- Shared body of `on` and `once` of Events.ts (the two source methods are
textually identical except for the boolean passed to `ListenerInfo`).
Faithful detail: when no record exists for the event, a fresh record seeded
from the current global config is stored in the table BEFORE the
max-listeners check, so a failing call can still create the record. -/
def EventEmitter.add (em : EventEmitter) (event : String) (cb : Cb)
    (once : Bool) : EventEmitter × Option EventsError :=
  match alookup em.slots event with
  | some ev =>
    if ev.config.maxListeners = ev.listeners.length then
      (em, some .E_EXCEED_MAX_LISTENERS)
    else
      ({ em with slots := aset em.slots event ({ ev with listeners := ev.listeners ++ [⟨cb, once⟩] }) }, none)
  | none =>
    let ev : EventInfo := { config := em.config, listeners := [] }
    let em' : EventEmitter := { em with slots := aset em.slots event ev }
    if ev.config.maxListeners = ev.listeners.length then
      (em', some .E_EXCEED_MAX_LISTENERS)
    else
      ({ em' with slots := aset em'.slots event ({ ev with listeners := [⟨cb, once⟩] }) }, none)

/-- Mirrors `EventEmitter.on` of Events.ts. -/
def EventEmitter.on (em : EventEmitter) (event : String) (cb : Cb) :
    EventEmitter × Option EventsError :=
  em.add event cb false

/-- Mirrors `EventEmitter.once` of Events.ts. -/
def EventEmitter.once (em : EventEmitter) (event : String) (cb : Cb) :
    EventEmitter × Option EventsError :=
  em.add event cb true

/-- Mirrors `EventEmitter.addListener` (alias of `on`). -/
def EventEmitter.addListener (em : EventEmitter) (event : String) (cb : Cb) :
    EventEmitter × Option EventsError :=
  em.on event cb

/-- Mirrors `EventEmitter.addOnceListener` (alias of `once`). -/
def EventEmitter.addOnceListener (em : EventEmitter) (event : String) (cb : Cb) :
    EventEmitter × Option EventsError :=
  em.once event cb

/-- Mirrors `EventEmitter.eventNames`: the keys of the event table. -/
def EventEmitter.eventNames (em : EventEmitter) : List String :=
  em.slots.map (fun p => p.1)

/-- Mirrors `EventEmitter.hasListener`: some entry's callback reference
equals the given callback. -/
def EventEmitter.hasListener (em : EventEmitter) (event : String) (cb : Cb) :
    Bool :=
  match alookup em.slots event with
  | none => false
  | some ev => (ev.listeners.filter (fun x => x.callback == cb)).length > 0

/-- Mirrors `EventEmitter.listeners`: the ordered callback references. -/
def EventEmitter.listeners (em : EventEmitter) (event : String) : List Cb :=
  match alookup em.slots event with
  | none => []
  | some ev => ev.listeners.map (fun x => x.callback)

/-- Mirrors `EventEmitter.listenerCount`. -/
def EventEmitter.listenerCount (em : EventEmitter) (event : String) : Nat :=
  match alookup em.slots event with
  | none => 0
  | some ev => ev.listeners.length

/-- Mirrors the first-pass loop of `EventEmitter.off`: the index loop
`splice(i--, 1)` removes every entry whose callback reference equals the
given one, keeping the relative order of the others. -/
def removeMatching (cb : Cb) : List ListenerInfo → List ListenerInfo
  | [] => []
  | li :: rest =>
    if li.callback = cb then removeMatching cb rest
    else li :: removeMatching cb rest

/-- Mirrors `EventEmitter.off` of Events.ts: without a record the call is a
no-op returning 0; otherwise, when a callback is supplied, matching entries
are first spliced out, and then `listeners.splice(0)` unconditionally clears
the whole remaining list and the RETURN VALUE is the length of that final
splice, i.e. the number of listeners that did NOT match the callback. -/
def EventEmitter.off (em : EventEmitter) (event : String) (callback : Option Cb) :
    EventEmitter × Nat :=
  match alookup em.slots event with
  | none => (em, 0)
  | some ev =>
    let remaining : List ListenerInfo :=
      match callback with
      | some cb => removeMatching cb ev.listeners
      | none => ev.listeners
    ({ em with slots := aset em.slots event ({ ev with listeners := [] }) },
     remaining.length)

/-- Mirrors `EventEmitter.removeListener` (alias of `off`). -/
def EventEmitter.removeListener (em : EventEmitter) (event : String)
    (callback : Option Cb) : EventEmitter × Nat :=
  em.off event callback

/-- Mirrors the two-argument overload of `EventEmitter.configEvent`: merge
onto an existing record's config, or create a fresh record whose config is
the global config merged with the partial and whose listener list is empty. -/
def EventEmitter.configEventNamed (em : EventEmitter) (event : String)
    (p : PartialConfiguration) : EventEmitter :=
  match alookup em.slots event with
  | some ev =>
    { em with slots := aset em.slots event ({ ev with config := mergeConfig ev.config p }) }
  | none =>
    { em with slots := aset em.slots event ({ config := mergeConfig em.config p, listeners := [] }) }

/-- Mirrors the one-argument overload of `EventEmitter.configEvent`: replace
the global config by the merge (the source builds a fresh object with spread
syntax, so existing records, which hold the previous config value, are
observably untouched). -/
def EventEmitter.configEventGlobal (em : EventEmitter)
    (p : PartialConfiguration) : EventEmitter :=
  { em with config := mergeConfig em.config p }

/-- One entry of the invocation trace produced by `emit`: which event's
listener was invoked, the identity of its callback, and the arguments. -/
structure InvRec where
  event : String
  cbId : Nat
  args : List Nat
deriving DecidableEq

/-- Trace entry for invoking one listener of `event` with `args`. -/
def invRec (event : String) (args : List Nat) (li : ListenerInfo) : InvRec :=
  { event := event, cbId := li.callback.id, args := args }

/-- Write back the (mutated) listener list of an event record; models the
in-place array mutation performed by the dispatch loop's splices. -/
def setListeners (em : EventEmitter) (event : String)
    (ls : List ListenerInfo) : EventEmitter :=
  match alookup em.slots event with
  | none => em
  | some ev => { em with slots := aset em.slots event ({ ev with listeners := ls }) }

/-- Dispatch loop of `EventEmitter.emit` specialised to the `"error"` event:
in the source's catch branch, `event === "error"` holds, so a thrown value is
rethrown directly (no recursive escalation and the `continueOnError` check is
unreachable). `kept` accumulates the already-processed entries that survived
their `finally` once-splice, `rest` is the part of the live array not yet
visited. All exits write the surviving list back into the record. -/
def emitErrLoop (em : EventEmitter) (args : List Nat) (intr : Bool)
    (kept : List ListenerInfo) :
    List ListenerInfo → List InvRec → EventEmitter × List InvRec × Except Nat Bool
  | [], trace => (setListeners em "error" kept, trace, .ok true)
  | li :: rest, trace =>
    let trace' := trace ++ [invRec "error" args li]
    let kept' := if li.once then kept else kept ++ [li]
    match li.callback.behavior with
    | .ret rf =>
      if intr && rf then
        (setListeners em "error" (kept' ++ rest), trace', .ok true)
      else
        emitErrLoop em args intr kept' rest trace'
    | .thrw e =>
      (setListeners em "error" (kept' ++ rest), trace', .error e)

/-- Mirrors `EventEmitter.emit` for the event name `"error"` (including the
recursive escalation call `this.emit("error", e)` made by dispatches of other
events): no record or an empty listener list yields `false` with no effect,
otherwise the dispatch loop runs. -/
def emitErr (em : EventEmitter) (args : List Nat) :
    EventEmitter × List InvRec × Except Nat Bool :=
  match alookup em.slots "error" with
  | none => (em, [], .ok false)
  | some ev =>
    if ev.listeners.isEmpty then (em, [], .ok false)
    else emitErrLoop em args ev.config.interruptable [] ev.listeners []

/-- Dispatch loop of `EventEmitter.emit` for an event other than `"error"`.
On a throw the loop escalates via `emitErr em [e]` (the source's
`this.emit("error", e)`), then the `finally` once-splice runs; if the inner
dispatch itself threw (an `"error"` listener threw), that value propagates to
the caller; otherwise with `continueOnError` false the loop returns `true`,
else it continues. The inner dispatch only touches the `"error"` record, so
threading the outer event's live list separately is faithful. -/
def emitLoop (em : EventEmitter) (event : String) (args : List Nat)
    (intr cont : Bool) (kept : List ListenerInfo) :
    List ListenerInfo → List InvRec → EventEmitter × List InvRec × Except Nat Bool
  | [], trace => (setListeners em event kept, trace, .ok true)
  | li :: rest, trace =>
    let trace' := trace ++ [invRec event args li]
    let kept' := if li.once then kept else kept ++ [li]
    match li.callback.behavior with
    | .ret rf =>
      if intr && rf then
        (setListeners em event (kept' ++ rest), trace', .ok true)
      else
        emitLoop em event args intr cont kept' rest trace'
    | .thrw e =>
      match emitErr em [e] with
      | (em2, tr2, .error e2) =>
        (setListeners em2 event (kept' ++ rest), trace' ++ tr2, .error e2)
      | (em2, tr2, .ok _) =>
        if cont then emitLoop em2 event args intr cont kept' rest (trace' ++ tr2)
        else (setListeners em2 event (kept' ++ rest), trace' ++ tr2, .ok true)

/-- Mirrors `EventEmitter.emit` of Events.ts: returns the post-dispatch
state, the invocation trace, and either the returned boolean or a value that
propagated out as an exception. -/
def EventEmitter.emit (em : EventEmitter) (event : String) (args : List Nat) :
    EventEmitter × List InvRec × Except Nat Bool :=
  if event = "error" then emitErr em args
  else
    match alookup em.slots event with
    | none => (em, [], .ok false)
    | some ev =>
      if ev.listeners.isEmpty then (em, [], .ok false)
      else emitLoop em event args ev.config.interruptable
        ev.config.continueOnError [] ev.listeners []

/-- Behaviour of one registered filter function: given the current value and
the extra arguments, produce the next value (the source awaits a returned
promise, so the sequential pipeline is the composition of these functions). -/
def TFilterFn : Type := Nat → List Nat → Nat

/-- Mirrors class `FilterManager` of FilterManager.ts: a mapping from filter
name to a mapping from registration key to a filter function, both in
insertion order. -/
structure FilterManager where
  filters : List (String × List (String × TFilterFn))

/-- Error kinds thrown by the filter module. -/
inductive FiltersError where
  | E_DUP_FILTER_FUNCTION (name : String) (key : String)
deriving DecidableEq

/-- Body of one iteration of the loop in `FilterManager.register` for a
single name: create the sub-mapping if absent (in which case the key cannot
already be present, and the callback is stored), otherwise fail if the key is
already registered, else store the callback under the key. -/
def FilterManager.registerOne (fm : FilterManager) (s : String) (key : String)
    (callback : TFilterFn) : FilterManager × Option FiltersError :=
  match alookup fm.filters s with
  | none =>
    ({ filters := aset fm.filters s [(key, callback)] }, none)
  | some sub =>
    if (alookup sub key).isSome then
      (fm, some (.E_DUP_FILTER_FUNCTION s key))
    else
      ({ filters := aset fm.filters s (sub ++ [(key, callback)]) }, none)

/-- Mirrors `FilterManager.register` with an array argument (a plain string
is the one-element array case): iterate over the names in order, stopping at
the first duplicate-registration error; names already processed keep their
registration (the source loop is not atomic on failure). -/
def FilterManager.register (fm : FilterManager) (names : List String)
    (key : String) (callback : TFilterFn) : FilterManager × Option FiltersError :=
  match names with
  | [] => (fm, none)
  | s :: rest =>
    match fm.registerOne s key callback with
    | (fm1, some e) => (fm1, some e)
    | (fm1, none) => fm1.register rest key callback

/-- The for-in loop of `FilterManager.filter`: apply each registered function
in key order, feeding the (awaited) result forward as the new value. -/
def runPipeline (sub : List (String × TFilterFn)) (value : Nat)
    (args : List Nat) : Nat :=
  match sub with
  | [] => value
  | (_, fn) :: rest => runPipeline rest (fn value args) args

/-- Mirrors `FilterManager.filter`: no sub-mapping returns the value
unchanged, otherwise the sequential pipeline runs over it. -/
def FilterManager.filter (fm : FilterManager) (name : String) (value : Nat)
    (args : List Nat) : Nat :=
  match alookup fm.filters name with
  | none => value
  | some callbacks => runPipeline callbacks value args

/-- Presence of a registration key under a filter name (the truthiness test
`this._filters[s][key]` of the source; stored callbacks are functions and
thus always truthy). -/
def FilterManager.hasFilterFn (fm : FilterManager) (s : String) (key : String) :
    Bool :=
  match alookup fm.filters s with
  | none => false
  | some sub => (alookup sub key).isSome

/-- Invariant of claim C2: every event record's listener count is bounded by
its own configured `maxListeners`. -/
def BoundInv (em : EventEmitter) : Prop :=
  ∀ p ∈ em.slots, p.2.listeners.length ≤ p.2.config.maxListeners

/-- One event-table entry evolves without touching its key or config, and
its listener list only loses entries (order preserved). -/
def SlotShrinks (p q : String × EventInfo) : Prop :=
  q.1 = p.1 ∧ q.2.config = p.2.config ∧ List.Sublist q.2.listeners p.2.listeners

/-- The emitter state evolves by only removing listeners: global config,
keys, and per-record configs untouched, listener lists sublists of before. -/
def Shrinks (em em' : EventEmitter) : Prop :=
  em'.config = em.config ∧ List.Forall₂ SlotShrinks em.slots em'.slots

/-- Fixture callback: returns a value other than `false`. -/
def cbA : Cb := ⟨1, CbRes.ret false⟩

/-- Fixture callback: returns a value other than `false`. -/
def cbB : Cb := ⟨2, CbRes.ret false⟩

/-- Fixture callback: throws the value 7. -/
def cbThrow7 : Cb := ⟨3, CbRes.thrw 7⟩

/-- Fixture callback: returns exactly `false`. -/
def cbInterrupt : Cb := ⟨4, CbRes.ret true⟩

/-- Fixture callback: throws the value 5. -/
def cbThrow5 : Cb := ⟨5, CbRes.thrw 5⟩

/-- Fixture emitter: one event `"x"` with two plain listeners `cbA`, `cbB`. -/
def emOffPair : EventEmitter :=
  ⟨DEFAULT_CONFIGURATION,
   [("x", ⟨DEFAULT_CONFIGURATION, [⟨cbA, false⟩, ⟨cbB, false⟩]⟩)]⟩

/-- Fixture emitter: empty table, global `maxListeners` zero. -/
def emMaxZero : EventEmitter :=
  ⟨{ interruptable := false, continueOnError := false, maxListeners := 0 }, []⟩

/-- State left behind by a registration call that fails the limit check:
unchanged when a record for the event already existed, otherwise the freshly
created empty record (seeded from the global config) persists in the table. -/
def emAfterFail (em : EventEmitter) (event : String) : EventEmitter :=
  match alookup em.slots event with
  | some _ => em
  | none => { em with slots := aset em.slots event ⟨em.config, []⟩ }

/-- Record that a registration call for `event` observes: the existing one,
or the fresh empty record it creates from the global config. -/
def effRecord (em : EventEmitter) (event : String) : EventInfo :=
  (alookup em.slots event).getD ⟨em.config, []⟩

/-- Fixture filter function: returns the value unchanged. -/
def idFn : TFilterFn := fun v _ => v

/-- Fixture filter function: adds one to the value. -/
def addOneFn : TFilterFn := fun v _ => v + 1

/-- Fixture filter function: doubles the value. -/
def doubleFn : TFilterFn := fun v _ => v * 2

/-- Fixture filter manager: name `"n"` has keys `"a"` then `"b"`. -/
def fmPipe : FilterManager := ⟨[("n", [("a", addOneFn), ("b", doubleFn)])]⟩

/-- Fixture filter manager: key `"a"` already registered under name `"n"`. -/
def fmDup : FilterManager := ⟨[("n", [("a", idFn)])]⟩

/-- Fixture emitter for escalation: event `"a"` has a plain listener, then a
throwing listener, then another plain listener; the `"error"` event has one
once-listener. -/
def emC4 : EventEmitter :=
  ⟨DEFAULT_CONFIGURATION,
   [("a", ⟨DEFAULT_CONFIGURATION,
      [⟨cbA, false⟩, ⟨cbThrow7, false⟩, ⟨cbB, false⟩]⟩),
    ("error", ⟨DEFAULT_CONFIGURATION, [⟨cbB, true⟩]⟩)]⟩

/-- Fixture emitter for interruption: event `"x"` is interruptable and has a
plain listener, a once-listener returning `false`, then a plain listener. -/
def emInterrupt : EventEmitter :=
  ⟨DEFAULT_CONFIGURATION,
   [("x", ⟨{ interruptable := true, continueOnError := false, maxListeners := 10 },
      [⟨cbA, false⟩, ⟨cbInterrupt, true⟩, ⟨cbB, false⟩]⟩)]⟩

/-- Fixture emitter: the `"error"` event has a single listener that throws. -/
def emErrThrower : EventEmitter :=
  ⟨DEFAULT_CONFIGURATION,
   [("error", ⟨DEFAULT_CONFIGURATION, [⟨cbThrow5, false⟩]⟩)]⟩

/-- Fixture emitter: event `"x"` has a plain listener and a once-listener. -/
def emOnceMix : EventEmitter :=
  ⟨DEFAULT_CONFIGURATION,
   [("x", ⟨DEFAULT_CONFIGURATION, [⟨cbA, false⟩, ⟨cbB, true⟩]⟩)]⟩

/-- Fixture emitter: two listeners registered on `"x"` under the default
configuration. -/
def emTwo : EventEmitter :=
  ((((EventEmitter.mkNew none).on "x" cbA).1).on "x" cbB).1

/-- Fixture emitter: `emTwo` after a per-event reconfiguration lowering the
`"x"` record's `maxListeners` to 1, below its current two listeners. -/
def emTwoCapped : EventEmitter :=
  emTwo.configEventNamed "x" ⟨none, none, some 1⟩

/-- Fixture emitter: an `"x"` record created by per-event configuration with
`maxListeners` 0 and no listeners (so it sits exactly at its bound). -/
def emCap0 : EventEmitter :=
  (EventEmitter.mkNew none).configEventNamed "x" ⟨none, none, some 0⟩

/-! ## Lemmas and claim theorems -/

theorem alookup_aset_self {α : Type} (s : List (String × α)) (k : String) (v : α) :
    alookup (aset s k v) k = some v := by
  induction s with
  | nil => simp [aset, alookup]
  | cons p rest ih =>
    obtain ⟨k0, w⟩ := p
    by_cases h : k0 = k
    · simp [aset, alookup, h]
    · simp [aset, alookup, h, ih]

theorem alookup_aset_ne {α : Type} (s : List (String × α)) (k k' : String) (v : α)
    (h : k' ≠ k) : alookup (aset s k v) k' = alookup s k' := by
  induction s with
  | nil => simp [aset, alookup, Ne.symm h]
  | cons p rest ih =>
    obtain ⟨k0, w⟩ := p
    by_cases h0 : k0 = k
    · subst h0
      simp [aset, alookup, Ne.symm h]
    · simp [aset, alookup, h0, ih]

theorem alookup_mem {α : Type} {s : List (String × α)} {k : String} {v : α}
    (h : alookup s k = some v) : (k, v) ∈ s := by
  induction s with
  | nil => simp [alookup] at h
  | cons p rest ih =>
    obtain ⟨k0, w⟩ := p
    by_cases h0 : k0 = k
    · subst h0
      simp [alookup] at h
      simp [h]
    · simp [alookup, h0] at h
      exact List.mem_cons_of_mem _ (ih h)

theorem mem_aset {α : Type} {s : List (String × α)} {k : String} {v : α}
    {p : String × α} (h : p ∈ aset s k v) : p = (k, v) ∨ p ∈ s := by
  induction s with
  | nil =>
    simp [aset] at h
    simp [h]
  | cons q rest ih =>
    obtain ⟨k0, w⟩ := q
    by_cases h0 : k0 = k
    · subst h0
      simp [aset] at h
      rcases h with h | h
      · left
        simp [h]
      · right
        exact List.mem_cons_of_mem _ h
    · simp [aset, h0] at h
      rcases h with h | h
      · right
        simp [h]
      · rcases ih h with h' | h'
        · left
          exact h'
        · right
          exact List.mem_cons_of_mem _ h'

theorem removeMatching_eq_filter (cb : Cb) (l : List ListenerInfo) :
    removeMatching cb l = l.filter (fun li => !(li.callback == cb)) := by
  induction l with
  | nil => rfl
  | cons li rest ih =>
    by_cases h : li.callback = cb <;>
      simp [removeMatching, h, ih, List.filter_cons]

/-- C1 (amended): for an event with an existing record, `off(event, cb)` with
a callback clears the entire listener list (matching and non-matching alike),
but its return value is the number of listeners that did NOT match `cb` (the
pre-call total minus the matched count), not the pre-call total. -/
theorem C1_off_clears_all_counts_unmatched (em : EventEmitter) (event : String)
    (cb : Cb) (ev : EventInfo) (h : alookup em.slots event = some ev) :
    (em.off event (some cb)).1.listenerCount event = 0 ∧
    (∀ c, (em.off event (some cb)).1.hasListener event c = false) ∧
    (em.off event (some cb)).2 =
      (ev.listeners.filter (fun li => !(li.callback == cb))).length := by
  refine ⟨?_, ?_, ?_⟩
  · simp [EventEmitter.off, h, EventEmitter.listenerCount, alookup_aset_self]
  · intro c
    simp [EventEmitter.off, h, EventEmitter.hasListener, alookup_aset_self]
  · simp [EventEmitter.off, h, removeMatching_eq_filter]

/-- C1 witness: the amended theorem applied to a concrete emitter with two
listeners of which one matches. -/
theorem C1_witness :
    (emOffPair.off "x" (some cbA)).1.listenerCount "x" = 0 ∧
    (∀ c, (emOffPair.off "x" (some cbA)).1.hasListener "x" c = false) ∧
    (emOffPair.off "x" (some cbA)).2 =
      (([⟨cbA, false⟩, ⟨cbB, false⟩] : List ListenerInfo).filter
        (fun li => !(li.callback == cbA))).length :=
  C1_off_clears_all_counts_unmatched emOffPair "x" cbA
    ⟨DEFAULT_CONFIGURATION, [⟨cbA, false⟩, ⟨cbB, false⟩]⟩ (by rfl)

/-- C1 counterexample: an event with two listeners, one matching the removed
callback; the claim predicts a return value of 2 (the pre-call total), the
code returns 1 (the non-matching count). -/
theorem C1_counterexample :
    emOffPair.listenerCount "x" = 2 ∧
    (emOffPair.off "x" (some cbA)).2 = 1 ∧
    (emOffPair.off "x" (some cbA)).2 ≠ emOffPair.listenerCount "x" := by
  refine ⟨rfl, rfl, ?_⟩
  decide

/-- C3 (amended): when a registration call finds the observed record (the
existing one, or the fresh empty record it just created) already at its
`maxListeners` bound, both `on` and `once` raise `E_EXCEED_MAX_LISTENERS` and
append no listener; the resulting state is exactly the pre-call state when a
record existed, but when none existed the freshly created empty record
remains in the table despite the failure. -/
theorem C3_limit_failure_state (em : EventEmitter) (event : String) (cb : Cb)
    (hlim : (effRecord em event).listeners.length =
            (effRecord em event).config.maxListeners) :
    em.on event cb = (emAfterFail em event, some EventsError.E_EXCEED_MAX_LISTENERS) ∧
    em.once event cb = (emAfterFail em event, some EventsError.E_EXCEED_MAX_LISTENERS) := by
  have key : ∀ o : Bool,
      em.add event cb o = (emAfterFail em event, some EventsError.E_EXCEED_MAX_LISTENERS) := by
    intro o
    unfold EventEmitter.add emAfterFail
    cases hev : alookup em.slots event with
    | some ev =>
      have : ev.config.maxListeners = ev.listeners.length := by
        have := hlim
        simp [effRecord, hev] at this
        exact this.symm
      simp [this]
    | none =>
      have : em.config.maxListeners = 0 := by
        have := hlim
        simp [effRecord, hev] at this
        exact this.symm
      simp [this]
  exact ⟨key false, key true⟩

/-- C3 witness: the amended theorem applied to an emitter with global
`maxListeners` zero and no record for the event. -/
theorem C3_witness :
    EventEmitter.on emMaxZero "x" cbA =
      (emAfterFail emMaxZero "x", some EventsError.E_EXCEED_MAX_LISTENERS) ∧
    EventEmitter.once emMaxZero "x" cbA =
      (emAfterFail emMaxZero "x", some EventsError.E_EXCEED_MAX_LISTENERS) :=
  C3_limit_failure_state emMaxZero "x" cbA (by decide)

/-- C3 counterexample: with global `maxListeners` zero and no record for
`"x"`, the failing `on` call nevertheless creates a record: the resulting
state differs from the pre-call state, so the failed call is not free of
mutation. -/
theorem C3_counterexample :
    (emMaxZero.on "x" cbA).2 = some EventsError.E_EXCEED_MAX_LISTENERS ∧
    (emMaxZero.on "x" cbA).1 ≠ emMaxZero ∧
    (emMaxZero.on "x" cbA).1.eventNames = ["x"] := by
  refine ⟨rfl, ?_, rfl⟩
  decide

/-- C8: a global `configEvent` call never touches the event table, so every
existing record keeps its configuration; a record created by `on` snapshots
the global config of its creation moment, and a record created by the
two-argument `configEvent` snapshots the global config merged with the
explicit override — and both survive later global config changes intact. -/
theorem C8_config_snapshot (em : EventEmitter) (event : String) (cb : Cb)
    (p q : PartialConfiguration) :
    ((em.configEventGlobal q).slots = em.slots) ∧
    (alookup em.slots event = none → em.config.maxListeners ≠ 0 →
      alookup ((em.on event cb).1).slots event =
        some ⟨em.config, [⟨cb, false⟩]⟩ ∧
      alookup (((em.on event cb).1).configEventGlobal q).slots event =
        some ⟨em.config, [⟨cb, false⟩]⟩) ∧
    (alookup em.slots event = none →
      alookup (em.configEventNamed event p).slots event =
        some ⟨mergeConfig em.config p, []⟩ ∧
      alookup ((em.configEventNamed event p).configEventGlobal q).slots event =
        some ⟨mergeConfig em.config p, []⟩) := by
  refine ⟨rfl, ?_, ?_⟩
  · intro hnone hmax
    have hon : alookup ((em.on event cb).1).slots event =
        some ⟨em.config, [⟨cb, false⟩]⟩ := by
      simp [EventEmitter.on, EventEmitter.add, hnone, hmax,
        alookup_aset_self]
    exact ⟨hon, hon⟩
  · intro hnone
    have hcn : alookup (em.configEventNamed event p).slots event =
        some ⟨mergeConfig em.config p, []⟩ := by
      simp [EventEmitter.configEventNamed, hnone, alookup_aset_self]
    exact ⟨hcn, hcn⟩

/-- C8 witness: the snapshot theorem applied to a fresh default emitter, a
concrete per-event override and a concrete later global override, with the
record-absence and nonzero-limit hypotheses discharged. -/
theorem C8_witness :
    (((EventEmitter.mkNew none).configEventGlobal
        ⟨none, none, some 3⟩).slots = (EventEmitter.mkNew none).slots) ∧
    (alookup ((((EventEmitter.mkNew none).on "x" cbA).1).configEventGlobal
        ⟨none, none, some 3⟩).slots "x" =
      some ⟨(EventEmitter.mkNew none).config, [⟨cbA, false⟩]⟩) ∧
    (alookup (((EventEmitter.mkNew none).configEventNamed "x"
        ⟨some true, none, none⟩).configEventGlobal ⟨none, none, some 3⟩).slots "x" =
      some ⟨mergeConfig (EventEmitter.mkNew none).config ⟨some true, none, none⟩, []⟩) :=
  ⟨(C8_config_snapshot (EventEmitter.mkNew none) "x" cbA
      ⟨some true, none, none⟩ ⟨none, none, some 3⟩).1,
   ((C8_config_snapshot (EventEmitter.mkNew none) "x" cbA
      ⟨some true, none, none⟩ ⟨none, none, some 3⟩).2.1 (by rfl) (by decide)).2,
   ((C8_config_snapshot (EventEmitter.mkNew none) "x" cbA
      ⟨some true, none, none⟩ ⟨none, none, some 3⟩).2.2 (by rfl)).2⟩

theorem alookup_append {α : Type} (s t : List (String × α)) (k : String) :
    alookup (s ++ t) k =
      match alookup s k with
      | some v => some v
      | none => alookup t k := by
  induction s with
  | nil => simp [alookup]
  | cons p rest ih =>
    obtain ⟨k0, w⟩ := p
    by_cases h : k0 = k <;> simp [alookup, h, ih]

theorem hasFilterFn_congr {fm1 fm2 : FilterManager} {s key : String}
    (h : alookup fm1.filters s = alookup fm2.filters s) :
    fm1.hasFilterFn s key = fm2.hasFilterFn s key := by
  unfold FilterManager.hasFilterFn
  rw [h]

theorem registerOne_fresh (fm : FilterManager) (s key : String) (fn : TFilterFn)
    (h : fm.hasFilterFn s key = false) :
    (fm.registerOne s key fn).2 = none ∧
    (fm.registerOne s key fn).1.hasFilterFn s key = true ∧
    (∀ s', s' ≠ s → alookup (fm.registerOne s key fn).1.filters s' =
      alookup fm.filters s') := by
  unfold FilterManager.registerOne
  cases hs : alookup fm.filters s with
  | none =>
    refine ⟨rfl, ?_, ?_⟩
    · simp [FilterManager.hasFilterFn, alookup_aset_self, alookup]
    · intro s' hne
      simp [alookup_aset_ne _ _ _ _ hne]
  | some sub =>
    have hk : alookup sub key = none := by
      unfold FilterManager.hasFilterFn at h
      rw [hs] at h
      have h2 : (alookup sub key).isSome = false := h
      cases hkk : alookup sub key with
      | none => rfl
      | some w =>
        rw [hkk] at h2
        simp at h2
    refine ⟨by simp [hk], ?_, ?_⟩
    · simp [hk, FilterManager.hasFilterFn, alookup_aset_self, alookup_append,
        alookup]
    · intro s' hne
      simp [hk, alookup_aset_ne _ _ _ _ hne]

theorem registerOne_dup (fm : FilterManager) (s key : String) (fn : TFilterFn)
    (h : fm.hasFilterFn s key = true) :
    fm.registerOne s key fn =
      (fm, some (FiltersError.E_DUP_FILTER_FUNCTION s key)) := by
  unfold FilterManager.registerOne
  unfold FilterManager.hasFilterFn at h
  cases hs : alookup fm.filters s with
  | none =>
    rw [hs] at h
    have h2 : False := by simp at h
    exact h2.elim
  | some sub =>
    rw [hs] at h
    have h2 : (alookup sub key).isSome = true := h
    simp [h2]

/-- C10: registering a callback under an array of names is not atomic on
failure: when the key is already present under one of the names, the
duplicate-registration error is raised mid-iteration, leaving the callback
registered under every name preceding the duplicate and every other name
(including those after the duplicate) untouched. -/
theorem C10_register_not_atomic (fm : FilterManager) (names1 : List String)
    (nd : String) (names2 : List String) (key : String) (fn : TFilterFn)
    (hnodup : names1.Nodup) (hnd : nd ∉ names1)
    (habsent : ∀ s ∈ names1, fm.hasFilterFn s key = false)
    (hdup : fm.hasFilterFn nd key = true) :
    (fm.register (names1 ++ nd :: names2) key fn).2 =
      some (FiltersError.E_DUP_FILTER_FUNCTION nd key) ∧
    (∀ s ∈ names1, (fm.register (names1 ++ nd :: names2) key fn).1.hasFilterFn
      s key = true) ∧
    (∀ s, s ∉ names1 → (fm.register (names1 ++ nd :: names2) key fn).1.hasFilterFn
      s key = fm.hasFilterFn s key) := by
  induction names1 generalizing fm with
  | nil =>
    simp only [List.nil_append, FilterManager.register]
    rw [registerOne_dup fm nd key fn hdup]
    refine ⟨rfl, by simp, ?_⟩
    intro s _
    rfl
  | cons s0 rest ih =>
    obtain ⟨habs0, habsrest⟩ := List.forall_mem_cons.mp habsent
    obtain ⟨hfresh2, hself, hothers⟩ := registerOne_fresh fm s0 key fn habs0
    have hs0rest : s0 ∉ rest := (List.nodup_cons.mp hnodup).1
    have hndrest : nd ∉ rest := fun hh => hnd (List.mem_cons_of_mem _ hh)
    have hnds0 : nd ≠ s0 := fun hh => hnd (by simp [hh])
    set fm1 := (fm.registerOne s0 key fn).1 with hfm1
    have hstep : fm.register ((s0 :: rest) ++ nd :: names2) key fn =
        fm1.register (rest ++ nd :: names2) key fn := by
      simp only [List.cons_append, FilterManager.register]
      rcases hro : fm.registerOne s0 key fn with ⟨fmx, ox⟩
      have : ox = none := by
        have := hfresh2
        rw [hro] at this
        exact this
      subst this
      have : fmx = fm1 := by rw [hfm1, hro]
      rw [this]
      rfl
    have ihres := ih fm1 (List.nodup_cons.mp hnodup).2 hndrest
      (by
        intro t ht
        have htne : t ≠ s0 := fun hh => hs0rest (hh ▸ ht)
        rw [hasFilterFn_congr (hothers t htne)]
        exact habsrest t ht)
      (by
        rw [hasFilterFn_congr (hothers nd hnds0)]
        exact hdup)
    rw [hstep]
    refine ⟨ihres.1, ?_, ?_⟩
    · intro t ht
      rcases List.mem_cons.mp ht with h | h
      · subst h
        rw [ihres.2.2 t hs0rest]
        exact hself
      · exact ihres.2.1 t h
    · intro t htn
      have htrest : t ∉ rest := fun hh => htn (List.mem_cons_of_mem _ hh)
      have htne : t ≠ s0 := fun hh => htn (by simp [hh])
      rw [ihres.2.2 t htrest]
      exact hasFilterFn_congr (hothers t htne)

/-- C10 witness: registering key `"a"` under `["p", "n", "q"]` on a manager
where `"n"` already has key `"a"`: the error names `"n"`, the key is left
registered under `"p"`, and `"q"` is untouched. -/
theorem C10_witness :
    (fmDup.register (["p"] ++ "n" :: ["q"]) "a" idFn).2 =
      some (FiltersError.E_DUP_FILTER_FUNCTION "n" "a") ∧
    (fmDup.register (["p"] ++ "n" :: ["q"]) "a" idFn).1.hasFilterFn "p" "a" = true ∧
    (fmDup.register (["p"] ++ "n" :: ["q"]) "a" idFn).1.hasFilterFn "q" "a" =
      fmDup.hasFilterFn "q" "a" := by
  have main := C10_register_not_atomic fmDup ["p"] "n" ["q"] "a" idFn
    (by simp) (by simp) (by intro s hs; simp at hs; subst hs; rfl) (by rfl)
  exact ⟨main.1, main.2.1 "p" (by simp), main.2.2 "q" (by simp)⟩

/-- C9: `filter(name, value, args)` returns `value` unchanged when no
sub-mapping exists for `name`; otherwise it runs the registered functions as
a sequential pipeline in registration order, feeding each result forward as
the next current value (splitting the registration list anywhere shows the
feed-forward: the second half starts from the first half's result). -/
theorem C9_filter_pipeline (fm : FilterManager) (name : String) (value : Nat)
    (args : List Nat) :
    (alookup fm.filters name = none → fm.filter name value args = value) ∧
    (∀ sub, alookup fm.filters name = some sub →
      fm.filter name value args = runPipeline sub value args) ∧
    (∀ s1 s2 : List (String × TFilterFn), ∀ v : Nat,
      runPipeline (s1 ++ s2) v args = runPipeline s2 (runPipeline s1 v args) args) := by
  refine ⟨?_, ?_, ?_⟩
  · intro h
    simp [FilterManager.filter, h]
  · intro sub h
    simp [FilterManager.filter, h]
  · intro s1
    induction s1 with
    | nil => intro s2 v; rfl
    | cons p rest ih =>
      intro s2 v
      obtain ⟨k, fn⟩ := p
      simp [runPipeline, ih]

/-- C9 witness: the pipeline theorem applied to a concrete manager mapping
`"n"` to add-one then double: a missing name returns the value unchanged,
and the two functions chain as double (add-one 3) = 8. -/
theorem C9_witness :
    fmPipe.filter "m" 3 [] = 3 ∧
    fmPipe.filter "n" 3 [] = runPipeline [("a", addOneFn), ("b", doubleFn)] 3 [] ∧
    runPipeline ([("a", addOneFn)] ++ [("b", doubleFn)]) 3 [] =
      runPipeline [("b", doubleFn)] (runPipeline [("a", addOneFn)] 3 []) [] :=
  ⟨(C9_filter_pipeline fmPipe "m" 3 []).1 (by rfl),
   (C9_filter_pipeline fmPipe "n" 3 []).2.1 [("a", addOneFn), ("b", doubleFn)] (by rfl),
   (C9_filter_pipeline fmPipe "n" 3 []).2.2 [("a", addOneFn)] [("b", doubleFn)] 3⟩

theorem emitLoop_normals (em : EventEmitter) (event : String) (args : List Nat)
    (intr cont : Bool) :
    ∀ (pre kept rest : List ListenerInfo) (trace : List InvRec),
      (∀ li ∈ pre, ∃ b, li.callback.behavior = CbRes.ret b ∧ (intr && b) = false) →
      emitLoop em event args intr cont kept (pre ++ rest) trace =
      emitLoop em event args intr cont (kept ++ pre.filter (fun l => !l.once))
        rest (trace ++ pre.map (invRec event args)) := by
  intro pre
  induction pre with
  | nil =>
    intro kept rest trace _
    simp
  | cons li pre ih =>
    intro kept rest trace h
    obtain ⟨b, hb, hib⟩ := h li (List.mem_cons_self _ _)
    have hpre := fun l hl => h l (List.mem_cons_of_mem _ hl)
    simp only [List.cons_append, emitLoop, hb, hib, Bool.false_eq_true,
      if_false, List.append_eq]
    rw [ih _ _ _ hpre]
    cases ho : li.once <;>
      simp [ho, List.filter_cons, List.append_assoc]

theorem emitErrLoop_normals (em : EventEmitter) (args : List Nat)
    (intr : Bool) :
    ∀ (pre kept rest : List ListenerInfo) (trace : List InvRec),
      (∀ li ∈ pre, ∃ b, li.callback.behavior = CbRes.ret b ∧ (intr && b) = false) →
      emitErrLoop em args intr kept (pre ++ rest) trace =
      emitErrLoop em args intr (kept ++ pre.filter (fun l => !l.once))
        rest (trace ++ pre.map (invRec "error" args)) := by
  intro pre
  induction pre with
  | nil =>
    intro kept rest trace _
    simp
  | cons li pre ih =>
    intro kept rest trace h
    obtain ⟨b, hb, hib⟩ := h li (List.mem_cons_self _ _)
    have hpre := fun l hl => h l (List.mem_cons_of_mem _ hl)
    simp only [List.cons_append, emitErrLoop, hb, hib, Bool.false_eq_true,
      if_false, List.append_eq]
    rw [ih _ _ _ hpre]
    cases ho : li.once <;>
      simp [ho, List.filter_cons, List.append_assoc]

theorem emitErrLoop_result (em : EventEmitter) (args : List Nat) (intr : Bool) :
    ∀ (rest kept : List ListenerInfo) (trace : List InvRec),
      (emitErrLoop em args intr kept rest trace).2.2 = Except.ok true ∨
      ∃ e, (emitErrLoop em args intr kept rest trace).2.2 = Except.error e := by
  intro rest
  induction rest with
  | nil =>
    intro kept trace
    left
    rfl
  | cons li rest ih =>
    intro kept trace
    cases hb : li.callback.behavior with
    | ret rf =>
      by_cases hi : (intr && rf) = true
      · left
        simp [emitErrLoop, hb, hi]
      · simpa [emitErrLoop, hb, hi] using ih _ _
    | thrw e =>
      right
      exact ⟨e, by simp [emitErrLoop, hb]⟩

theorem emitLoop_result (event : String) (args : List Nat) (intr cont : Bool) :
    ∀ (rest : List ListenerInfo) (em : EventEmitter) (kept : List ListenerInfo)
      (trace : List InvRec),
      (emitLoop em event args intr cont kept rest trace).2.2 = Except.ok true ∨
      ∃ e, (emitLoop em event args intr cont kept rest trace).2.2 = Except.error e := by
  intro rest
  induction rest with
  | nil =>
    intro em kept trace
    left
    rfl
  | cons li rest ih =>
    intro em kept trace
    cases hb : li.callback.behavior with
    | ret rf =>
      by_cases hi : (intr && rf) = true
      · left
        simp [emitLoop, hb, hi]
      · simpa [emitLoop, hb, hi] using ih em _ _
    | thrw e =>
      rcases hee : emitErr em [e] with ⟨em2, tr2, res2⟩
      cases res2 with
      | error e2 =>
        right
        exact ⟨e2, by simp [emitLoop, hb, hee]⟩
      | ok b =>
        cases hc : cont with
        | false =>
          left
          simp [emitLoop, hb, hee, hc]
        | true =>
          simpa [emitLoop, hb, hee, hc] using ih em2 _ _

theorem emitErrLoop_trace (em : EventEmitter) (args : List Nat) (intr : Bool) :
    ∀ (rest kept : List ListenerInfo) (trace : List InvRec) (r : InvRec),
      r ∈ (emitErrLoop em args intr kept rest trace).2.1 →
      r ∈ trace ∨ (r.event = "error" ∧ r.args = args) := by
  intro rest
  induction rest with
  | nil =>
    intro kept trace r hr
    left
    exact hr
  | cons li rest ih =>
    intro kept trace r hr
    cases hb : li.callback.behavior with
    | ret rf =>
      by_cases hi : (intr && rf) = true
      · simp only [emitErrLoop, hb, hi, if_true] at hr
        simp at hr
        rcases hr with h | h
        · left
          exact h
        · right
          subst h
          exact ⟨rfl, rfl⟩
      · simp only [emitErrLoop, hb, hi, Bool.false_eq_true, if_false] at hr
        rcases ih _ _ r hr with h | h
        · simp at h
          rcases h with h | h
          · left
            exact h
          · right
            subst h
            exact ⟨rfl, rfl⟩
        · right
          exact h
    | thrw e =>
      simp only [emitErrLoop, hb] at hr
      simp at hr
      rcases hr with h | h
      · left
        exact h
      · right
        subst h
        exact ⟨rfl, rfl⟩

theorem emitErr_trace (em : EventEmitter) (args : List Nat) (r : InvRec)
    (hr : r ∈ (emitErr em args).2.1) : r.event = "error" ∧ r.args = args := by
  unfold emitErr at hr
  cases hev : alookup em.slots "error" with
  | none =>
    rw [hev] at hr
    simp at hr
  | some ev =>
    rw [hev] at hr
    by_cases he : ev.listeners.isEmpty
    · simp [he] at hr
    · simp only [he, Bool.false_eq_true, if_false] at hr
      rcases emitErrLoop_trace em args ev.config.interruptable
        ev.listeners [] [] r hr with h | h
      · simp at h
      · exact h

/-- C4: when a listener of an event other than `"error"` throws, the thrown
value is re-routed by dispatching `"error"` on the same emitter with the
thrown value as the sole payload (every invocation of that inner dispatch
targets `"error"` with argument list `[e]`); with `continueOnError` false the
listeners after the throwing one are skipped and `emit` returns `true` —
unless the inner `"error"` dispatch itself threw, in which case that value
propagates to the `emit` caller, as it also does when a listener throws
during a dispatch of `"error"` itself. -/
theorem C4_escalation_policy :
    (∀ (em : EventEmitter) (event : String) (args : List Nat) (ev : EventInfo)
       (pre : List ListenerInfo) (li : ListenerInfo) (post : List ListenerInfo)
       (e : Nat),
      event ≠ "error" →
      alookup em.slots event = some ev →
      ev.listeners = pre ++ li :: post →
      ev.config.continueOnError = false →
      (∀ l ∈ pre, l.callback.behavior = CbRes.ret false) →
      li.callback.behavior = CbRes.thrw e →
      EventEmitter.emit em event args =
        (setListeners (emitErr em [e]).1 event
          (pre.filter (fun l => !l.once) ++
            (if li.once then [] else [li]) ++ post),
         (pre ++ [li]).map (invRec event args) ++ (emitErr em [e]).2.1,
         match (emitErr em [e]).2.2 with
         | Except.error e2 => Except.error e2
         | Except.ok _ => Except.ok true) ∧
      (∀ r ∈ (emitErr em [e]).2.1, r.event = "error" ∧ r.args = [e])) ∧
    (∀ (em : EventEmitter) (args : List Nat) (ev : EventInfo)
       (pre : List ListenerInfo) (li : ListenerInfo) (post : List ListenerInfo)
       (e : Nat),
      alookup em.slots "error" = some ev →
      ev.listeners = pre ++ li :: post →
      (∀ l ∈ pre, l.callback.behavior = CbRes.ret false) →
      li.callback.behavior = CbRes.thrw e →
      EventEmitter.emit em "error" args =
        (setListeners em "error"
          (pre.filter (fun l => !l.once) ++
            (if li.once then [] else [li]) ++ post),
         (pre ++ [li]).map (invRec "error" args), Except.error e)) := by
  constructor
  · intro em event args ev pre li post e hne hev hls hcont hpre hli
    refine ⟨?_, fun r hr => emitErr_trace em [e] r hr⟩
    have hempty : (pre ++ li :: post).isEmpty = false := by
      cases pre <;> rfl
    unfold EventEmitter.emit
    rw [if_neg hne]
    simp only [hev, hls, hempty, Bool.false_eq_true, if_false, hcont]
    rw [emitLoop_normals em event args ev.config.interruptable false pre []
      (li :: post) []
      (fun l hl => ⟨false, hpre l hl, by simp⟩)]
    simp only [List.nil_append]
    rcases hee : emitErr em [e] with ⟨em2, tr2, res2⟩
    cases res2 with
    | error e2 =>
      simp only [emitLoop, hli, hee]
      cases ho : li.once <;>
        simp [ho, List.map_append, List.append_assoc]
    | ok b =>
      simp only [emitLoop, hli, hee, Bool.false_eq_true, if_false]
      cases ho : li.once <;>
        simp [ho, List.map_append, List.append_assoc]
  · intro em args ev pre li post e hev hls hpre hli
    have hempty : (pre ++ li :: post).isEmpty = false := by
      cases pre <;> rfl
    unfold EventEmitter.emit
    rw [if_pos rfl]
    unfold emitErr
    simp only [hev, hls, hempty, Bool.false_eq_true, if_false]
    rw [emitErrLoop_normals em args ev.config.interruptable pre []
      (li :: post) []
      (fun l hl => ⟨false, hpre l hl, by simp⟩)]
    simp only [List.nil_append]
    simp only [emitErrLoop, hli]
    cases ho : li.once <;>
      simp [ho, List.map_append, List.append_assoc]

/-- C4 witness: the escalation theorem applied to a concrete emitter where
event `"a"` has a plain listener, a listener throwing 7, and a later plain
listener, and `"error"` has one once-listener. -/
theorem C4_witness :
    EventEmitter.emit emC4 "a" [9] =
      (setListeners (emitErr emC4 [7]).1 "a"
        (([⟨cbA, false⟩] : List ListenerInfo).filter (fun l => !l.once) ++
          (if (⟨cbThrow7, false⟩ : ListenerInfo).once then ([] : List ListenerInfo)
            else [⟨cbThrow7, false⟩]) ++
          [⟨cbB, false⟩]),
       (([⟨cbA, false⟩] : List ListenerInfo) ++
         ([⟨cbThrow7, false⟩] : List ListenerInfo)).map
         (invRec "a" [9]) ++ (emitErr emC4 [7]).2.1,
       match (emitErr emC4 [7]).2.2 with
       | Except.error e2 => Except.error e2
       | Except.ok _ => Except.ok true) ∧
    (∀ r ∈ (emitErr emC4 [7]).2.1, r.event = "error" ∧ r.args = [7]) :=
  (C4_escalation_policy.1 emC4 "a" [9]
    ⟨DEFAULT_CONFIGURATION, [⟨cbA, false⟩, ⟨cbThrow7, false⟩, ⟨cbB, false⟩]⟩
    [⟨cbA, false⟩] ⟨cbThrow7, false⟩ [⟨cbB, false⟩] 7
    (by decide) (by rfl) (by rfl) (by rfl)
    (by intro l hl; simp at hl; subst hl; rfl) (by rfl))

theorem emitLoop_all_normal (em : EventEmitter) (event : String)
    (args : List Nat) (intr cont : Bool) :
    ∀ (L kept : List ListenerInfo) (trace : List InvRec),
      (∀ li ∈ L, ∃ b, li.callback.behavior = CbRes.ret b ∧ (intr && b) = false) →
      emitLoop em event args intr cont kept L trace =
        (setListeners em event (kept ++ L.filter (fun l => !l.once)),
         trace ++ L.map (invRec event args), Except.ok true) := by
  intro L
  induction L with
  | nil =>
    intro kept trace _
    simp [emitLoop]
  | cons li rest ih =>
    intro kept trace h
    obtain ⟨b, hb, hib⟩ := h li (List.mem_cons_self _ _)
    simp only [emitLoop, hb, hib, Bool.false_eq_true, if_false]
    rw [ih _ _ (fun l hl => h l (List.mem_cons_of_mem _ hl))]
    cases ho : li.once <;>
      simp [ho, List.filter_cons, List.append_assoc]

theorem emitErrLoop_all_normal (em : EventEmitter) (args : List Nat)
    (intr : Bool) :
    ∀ (L kept : List ListenerInfo) (trace : List InvRec),
      (∀ li ∈ L, ∃ b, li.callback.behavior = CbRes.ret b ∧ (intr && b) = false) →
      emitErrLoop em args intr kept L trace =
        (setListeners em "error" (kept ++ L.filter (fun l => !l.once)),
         trace ++ L.map (invRec "error" args), Except.ok true) := by
  intro L
  induction L with
  | nil =>
    intro kept trace _
    simp [emitErrLoop]
  | cons li rest ih =>
    intro kept trace h
    obtain ⟨b, hb, hib⟩ := h li (List.mem_cons_self _ _)
    simp only [emitErrLoop, hb, hib, Bool.false_eq_true, if_false]
    rw [ih _ _ (fun l hl => h l (List.mem_cons_of_mem _ hl))]
    cases ho : li.once <;>
      simp [ho, List.filter_cons, List.append_assoc]

theorem isEmpty_false_of_ne_nil {L : List ListenerInfo} (h : L ≠ []) :
    L.isEmpty = false := by
  cases hl : L with
  | nil => exact absurd hl h
  | cons a l => rfl

/-- Full dispatch of an event whose listeners all return normally and never
interrupt: every listener is invoked once in order, once-entries are removed,
and `emit` returns `true`. -/
theorem emit_full_normal_run (em : EventEmitter) (event : String)
    (args : List Nat) (ev : EventInfo)
    (hev : alookup em.slots event = some ev) (hne : ev.listeners ≠ [])
    (hall : ∀ l ∈ ev.listeners, ∃ b, l.callback.behavior = CbRes.ret b ∧
      (ev.config.interruptable && b) = false) :
    EventEmitter.emit em event args =
      (setListeners em event (ev.listeners.filter (fun l => !l.once)),
       ev.listeners.map (invRec event args), Except.ok true) := by
  have hempty := isEmpty_false_of_ne_nil hne
  by_cases hE : event = "error"
  · subst hE
    unfold EventEmitter.emit
    rw [if_pos rfl]
    unfold emitErr
    simp only [hev, hempty, Bool.false_eq_true, if_false]
    rw [emitErrLoop_all_normal em args ev.config.interruptable
      ev.listeners [] [] hall]
    simp
  · unfold EventEmitter.emit
    rw [if_neg hE]
    simp only [hev, hempty, Bool.false_eq_true, if_false]
    rw [emitLoop_all_normal em event args ev.config.interruptable
      ev.config.continueOnError ev.listeners [] [] hall]
    simp

/-- Dispatch of an interruptable event up to the first listener returning
exactly `false`: the prefix is invoked, the interrupting listener is invoked
and its once-splice still runs, the rest of the list is never invoked, and
`emit` returns `true`. -/
theorem emit_interrupt_shape (em : EventEmitter) (event : String)
    (args : List Nat) (ev : EventInfo) (pre : List ListenerInfo)
    (li : ListenerInfo) (post : List ListenerInfo)
    (hev : alookup em.slots event = some ev)
    (hls : ev.listeners = pre ++ li :: post)
    (hintr : ev.config.interruptable = true)
    (hpre : ∀ l ∈ pre, l.callback.behavior = CbRes.ret false)
    (hli : li.callback.behavior = CbRes.ret true) :
    EventEmitter.emit em event args =
      (setListeners em event (pre.filter (fun l => !l.once) ++
        (if li.once then [] else [li]) ++ post),
       (pre ++ [li]).map (invRec event args), Except.ok true) := by
  have hempty : (pre ++ li :: post).isEmpty = false := by
    cases pre <;> rfl
  by_cases hE : event = "error"
  · subst hE
    unfold EventEmitter.emit
    rw [if_pos rfl]
    unfold emitErr
    simp only [hev, hls, hempty, Bool.false_eq_true, if_false, hintr]
    rw [emitErrLoop_normals em args true pre [] (li :: post) []
      (fun l hl => ⟨false, hpre l hl, by simp⟩)]
    simp only [List.nil_append]
    simp only [emitErrLoop, hli]
    cases ho : li.once <;>
      simp [ho, List.map_append, List.append_assoc]
  · unfold EventEmitter.emit
    rw [if_neg hE]
    simp only [hev, hls, hempty, Bool.false_eq_true, if_false, hintr]
    rw [emitLoop_normals em event args true ev.config.continueOnError pre []
      (li :: post) [] (fun l hl => ⟨false, hpre l hl, by simp⟩)]
    simp only [List.nil_append]
    simp only [emitLoop, hli]
    cases ho : li.once <;>
      simp [ho, List.map_append, List.append_assoc]

/-- Dispatch of a non-`"error"` event up to a throwing listener under
`continueOnError = false`: the prefix and the throwing listener are invoked,
the thrown value is escalated through `emitErr`, the once-splice of the
throwing entry still runs, the rest of the list is never invoked, and the
result is `true` unless the escalation itself threw. -/
theorem emit_throw_shape (em : EventEmitter) (event : String)
    (args : List Nat) (ev : EventInfo) (pre : List ListenerInfo)
    (li : ListenerInfo) (post : List ListenerInfo) (e : Nat)
    (hne : event ≠ "error")
    (hev : alookup em.slots event = some ev)
    (hls : ev.listeners = pre ++ li :: post)
    (hcont : ev.config.continueOnError = false)
    (hpre : ∀ l ∈ pre, l.callback.behavior = CbRes.ret false)
    (hli : li.callback.behavior = CbRes.thrw e) :
    EventEmitter.emit em event args =
      (setListeners (emitErr em [e]).1 event
        (pre.filter (fun l => !l.once) ++
          (if li.once then [] else [li]) ++ post),
       (pre ++ [li]).map (invRec event args) ++ (emitErr em [e]).2.1,
       match (emitErr em [e]).2.2 with
       | Except.error e2 => Except.error e2
       | Except.ok _ => Except.ok true) := by
  have hempty : (pre ++ li :: post).isEmpty = false := by
    cases pre <;> rfl
  unfold EventEmitter.emit
  rw [if_neg hne]
  simp only [hev, hls, hempty, Bool.false_eq_true, if_false, hcont]
  rw [emitLoop_normals em event args ev.config.interruptable false pre []
    (li :: post) [] (fun l hl => ⟨false, hpre l hl, by simp⟩)]
  simp only [List.nil_append]
  rcases hee : emitErr em [e] with ⟨em2, tr2, res2⟩
  cases res2 with
  | error e2 =>
    simp only [emitLoop, hli, hee]
    cases ho : li.once <;>
      simp [ho, List.map_append, List.append_assoc]
  | ok b =>
    simp only [emitLoop, hli, hee, Bool.false_eq_true, if_false]
    cases ho : li.once <;>
      simp [ho, List.map_append, List.append_assoc]

/-- C6: for an interruptable event, the first listener returning exactly
`false` stops dispatch — later listeners are not invoked (the trace covers
exactly the prefix and the interrupting listener) and `emit` returns `true`;
with `interruptable` false, `false` returns do not stop dispatch: every
listener is invoked in order. -/
theorem C6_interruptable_dispatch :
    (∀ (em : EventEmitter) (event : String) (args : List Nat) (ev : EventInfo)
       (pre : List ListenerInfo) (li : ListenerInfo) (post : List ListenerInfo),
      alookup em.slots event = some ev →
      ev.listeners = pre ++ li :: post →
      ev.config.interruptable = true →
      (∀ l ∈ pre, l.callback.behavior = CbRes.ret false) →
      li.callback.behavior = CbRes.ret true →
      EventEmitter.emit em event args =
        (setListeners em event (pre.filter (fun l => !l.once) ++
          (if li.once then [] else [li]) ++ post),
         (pre ++ [li]).map (invRec event args), Except.ok true)) ∧
    (∀ (em : EventEmitter) (event : String) (args : List Nat) (ev : EventInfo),
      alookup em.slots event = some ev →
      ev.listeners ≠ [] →
      ev.config.interruptable = false →
      (∀ l ∈ ev.listeners, ∃ b, l.callback.behavior = CbRes.ret b) →
      EventEmitter.emit em event args =
        (setListeners em event (ev.listeners.filter (fun l => !l.once)),
         ev.listeners.map (invRec event args), Except.ok true)) :=
  ⟨fun em event args ev pre li post hev hls hintr hpre hli =>
     emit_interrupt_shape em event args ev pre li post hev hls hintr hpre hli,
   fun em event args ev hev hne hintr hall =>
     emit_full_normal_run em event args ev hev hne
       (fun l hl => by
         obtain ⟨b, hb⟩ := hall l hl
         exact ⟨b, hb, by simp [hintr]⟩)⟩

/-- C6 witness: the interruption theorem applied to a concrete interruptable
event whose second listener returns `false`: the third listener does not
appear in the trace. -/
theorem C6_witness :
    EventEmitter.emit emInterrupt "x" [] =
      (setListeners emInterrupt "x"
        (([⟨cbA, false⟩] : List ListenerInfo).filter (fun l => !l.once) ++
          (if (⟨cbInterrupt, true⟩ : ListenerInfo).once
            then ([] : List ListenerInfo) else [⟨cbInterrupt, true⟩]) ++
          [⟨cbB, false⟩]),
       (([⟨cbA, false⟩] : List ListenerInfo) ++
         ([⟨cbInterrupt, true⟩] : List ListenerInfo)).map (invRec "x" []),
       Except.ok true) :=
  C6_interruptable_dispatch.1 emInterrupt "x" []
    ⟨{ interruptable := true, continueOnError := false, maxListeners := 10 },
      [⟨cbA, false⟩, ⟨cbInterrupt, true⟩, ⟨cbB, false⟩]⟩
    [⟨cbA, false⟩] ⟨cbInterrupt, true⟩ [⟨cbB, false⟩]
    (by rfl) (by rfl) (by rfl)
    (by intro l hl; simp at hl; subst hl; rfl) (by rfl)

/-- C5: a listener registered as once is removed by the dispatch that reaches
it, whichever way its invocation ends: part one covers a full normal run
(every once-entry filtered out of the final list, every listener invoked
exactly once in order, so none skipped or revisited); part two covers a
once-listener that interrupts by returning `false`; part three covers a
once-listener that throws (with `continueOnError` false on a non-`"error"`
event). In the latter two the invoked entry disappears while the untouched
suffix survives verbatim. -/
theorem C5_once_removed_after_dispatch :
    (∀ (em : EventEmitter) (event : String) (args : List Nat) (ev : EventInfo),
      alookup em.slots event = some ev →
      ev.listeners ≠ [] →
      (∀ l ∈ ev.listeners, ∃ b, l.callback.behavior = CbRes.ret b ∧
        (ev.config.interruptable && b) = false) →
      EventEmitter.emit em event args =
        (setListeners em event (ev.listeners.filter (fun l => !l.once)),
         ev.listeners.map (invRec event args), Except.ok true) ∧
      (∀ li ∈ ev.listeners, li.once = true →
        li ∉ ev.listeners.filter (fun l => !l.once))) ∧
    (∀ (em : EventEmitter) (event : String) (args : List Nat) (ev : EventInfo)
       (pre : List ListenerInfo) (li : ListenerInfo) (post : List ListenerInfo),
      alookup em.slots event = some ev →
      ev.listeners = pre ++ li :: post →
      ev.config.interruptable = true →
      (∀ l ∈ pre, l.callback.behavior = CbRes.ret false) →
      li.callback.behavior = CbRes.ret true →
      li.once = true →
      EventEmitter.emit em event args =
        (setListeners em event (pre.filter (fun l => !l.once) ++ post),
         (pre ++ [li]).map (invRec event args), Except.ok true) ∧
      (li ∉ post → li ∉ pre.filter (fun l => !l.once) ++ post)) ∧
    (∀ (em : EventEmitter) (event : String) (args : List Nat) (ev : EventInfo)
       (pre : List ListenerInfo) (li : ListenerInfo) (post : List ListenerInfo)
       (e : Nat),
      event ≠ "error" →
      alookup em.slots event = some ev →
      ev.listeners = pre ++ li :: post →
      ev.config.continueOnError = false →
      (∀ l ∈ pre, l.callback.behavior = CbRes.ret false) →
      li.callback.behavior = CbRes.thrw e →
      li.once = true →
      (EventEmitter.emit em event args).1 =
        setListeners (emitErr em [e]).1 event
          (pre.filter (fun l => !l.once) ++ post) ∧
      (li ∉ post → li ∉ pre.filter (fun l => !l.once) ++ post)) := by
  refine ⟨?_, ?_, ?_⟩
  · intro em event args ev hev hne hall
    refine ⟨emit_full_normal_run em event args ev hev hne hall, ?_⟩
    intro li _ honce
    simp [List.mem_filter, honce]
  · intro em event args ev pre li post hev hls hintr hpre hli honce
    have h := emit_interrupt_shape em event args ev pre li post hev hls hintr
      hpre hli
    rw [honce] at h
    constructor
    · simpa using h
    · intro hpost
      simp [List.mem_append, List.mem_filter, honce, hpost]
  · intro em event args ev pre li post e hne hev hls hcont hpre hli honce
    have h := emit_throw_shape em event args ev pre li post e hne hev hls
      hcont hpre hli
    rw [honce] at h
    constructor
    · rw [h]
      simp
    · intro hpost
      simp [List.mem_append, List.mem_filter, honce, hpost]

/-- C5 witness: the once-removal theorem's full-run part applied to an event
with a plain listener followed by a once-listener, both returning normally. -/
theorem C5_witness :
    (EventEmitter.emit emOnceMix "x" [] =
      (setListeners emOnceMix "x"
        (([⟨cbA, false⟩, ⟨cbB, true⟩] : List ListenerInfo).filter
          (fun l => !l.once)),
       ([⟨cbA, false⟩, ⟨cbB, true⟩] : List ListenerInfo).map (invRec "x" []),
       Except.ok true)) ∧
    (∀ li ∈ ([⟨cbA, false⟩, ⟨cbB, true⟩] : List ListenerInfo), li.once = true →
      li ∉ ([⟨cbA, false⟩, ⟨cbB, true⟩] : List ListenerInfo).filter
        (fun l => !l.once)) :=
  C5_once_removed_after_dispatch.1 emOnceMix "x" []
    ⟨DEFAULT_CONFIGURATION, [⟨cbA, false⟩, ⟨cbB, true⟩]⟩
    (by rfl) (by decide)
    (by
      intro l hl
      simp at hl
      rcases hl with h | h <;> subst h
      · exact ⟨false, rfl, by rfl⟩
      · exact ⟨false, rfl, by rfl⟩)

/-- C7 (amended): `emit` on an event with no record or an empty listener list
returns `false` and leaves the state (and trace) untouched; with at least
one listener, `emit` never returns `false` — it returns `true`, or a value
thrown by an `"error"`-dispatch listener propagates to the caller instead of
a return value. -/
theorem C7_emit_bool_result :
    (∀ (em : EventEmitter) (event : String) (args : List Nat),
      (alookup em.slots event = none ∨
        ∃ ev, alookup em.slots event = some ev ∧ ev.listeners = []) →
      EventEmitter.emit em event args = (em, [], Except.ok false)) ∧
    (∀ (em : EventEmitter) (event : String) (args : List Nat) (ev : EventInfo),
      alookup em.slots event = some ev → ev.listeners ≠ [] →
      (EventEmitter.emit em event args).2.2 = Except.ok true ∨
      ∃ e, (EventEmitter.emit em event args).2.2 = Except.error e) := by
  constructor
  · intro em event args h
    by_cases hE : event = "error"
    · subst hE
      unfold EventEmitter.emit
      rw [if_pos rfl]
      unfold emitErr
      rcases h with h | ⟨ev, hev, hl⟩
      · simp [h]
      · simp [hev, hl]
    · unfold EventEmitter.emit
      rw [if_neg hE]
      rcases h with h | ⟨ev, hev, hl⟩
      · simp [h]
      · simp [hev, hl]
  · intro em event args ev hev hne
    have hempty := isEmpty_false_of_ne_nil hne
    by_cases hE : event = "error"
    · subst hE
      unfold EventEmitter.emit
      rw [if_pos rfl]
      unfold emitErr
      simp only [hev, hempty, Bool.false_eq_true, if_false]
      exact emitErrLoop_result em args ev.config.interruptable
        ev.listeners [] []
    · unfold EventEmitter.emit
      rw [if_neg hE]
      simp only [hev, hempty, Bool.false_eq_true, if_false]
      exact emitLoop_result event args ev.config.interruptable
        ev.config.continueOnError ev.listeners em [] []

/-- C7 witness: the amended theorem applied to a fresh emitter with no
record (returns `false`, state untouched) and to an emitter whose `"error"`
listener throws (result is `true` or a propagated value, never `false`). -/
theorem C7_witness :
    EventEmitter.emit (EventEmitter.mkNew none) "zzz" [] =
      (EventEmitter.mkNew none, [], Except.ok false) ∧
    ((EventEmitter.emit emErrThrower "error" []).2.2 = Except.ok true ∨
      ∃ e, (EventEmitter.emit emErrThrower "error" []).2.2 = Except.error e) :=
  ⟨C7_emit_bool_result.1 (EventEmitter.mkNew none) "zzz" [] (Or.inl rfl),
   C7_emit_bool_result.2 emErrThrower "error" []
     ⟨DEFAULT_CONFIGURATION, [⟨cbThrow5, false⟩]⟩ (by rfl) (by decide)⟩

/-- C7 counterexample: an `"error"` event with one listener (which throws):
the claim predicts a `true` return since a listener is present, but `emit`
does not return a boolean at all — the thrown value 5 propagates to the
caller. -/
theorem C7_counterexample :
    emErrThrower.listenerCount "error" = 1 ∧
    (EventEmitter.emit emErrThrower "error" []).2.2 = Except.error 5 ∧
    (EventEmitter.emit emErrThrower "error" []).2.2 ≠ Except.ok true := by
  refine ⟨rfl, rfl, ?_⟩
  intro h
  have h2 : (Except.error 5 : Except Nat Bool) = Except.ok true := h
  exact Except.noConfusion h2

theorem forall2_slotShrinks_refl (s : List (String × EventInfo)) :
    List.Forall₂ SlotShrinks s s := by
  induction s with
  | nil => exact List.Forall₂.nil
  | cons p rest ih =>
    exact List.Forall₂.cons ⟨rfl, rfl, List.Sublist.refl _⟩ ih

theorem slotShrinks_trans {p q r : String × EventInfo}
    (h1 : SlotShrinks p q) (h2 : SlotShrinks q r) : SlotShrinks p r :=
  ⟨h2.1.trans h1.1, h2.2.1.trans h1.2.1, h2.2.2.trans h1.2.2⟩

theorem forall2_slotShrinks_trans {a b c : List (String × EventInfo)}
    (h1 : List.Forall₂ SlotShrinks a b) (h2 : List.Forall₂ SlotShrinks b c) :
    List.Forall₂ SlotShrinks a c := by
  induction h1 generalizing c with
  | nil =>
    cases h2
    exact List.Forall₂.nil
  | cons hpq h1' ih =>
    cases h2 with
    | cons hqr h2' =>
      exact List.Forall₂.cons (slotShrinks_trans hpq hqr) (ih h2')

theorem shrinks_refl (em : EventEmitter) : Shrinks em em :=
  ⟨rfl, forall2_slotShrinks_refl em.slots⟩

theorem shrinks_trans {a b c : EventEmitter} (h1 : Shrinks a b)
    (h2 : Shrinks b c) : Shrinks a c :=
  ⟨h2.1.trans h1.1, forall2_slotShrinks_trans h1.2 h2.2⟩

theorem forall2_aset_shrinks (s : List (String × EventInfo)) (n : String)
    (ev : EventInfo) (L : List ListenerInfo) (h : alookup s n = some ev)
    (hsub : List.Sublist L ev.listeners) :
    List.Forall₂ SlotShrinks s (aset s n ({ ev with listeners := L })) := by
  induction s with
  | nil => simp [alookup] at h
  | cons p rest ih =>
    obtain ⟨k0, w⟩ := p
    by_cases h0 : k0 = n
    · subst h0
      simp [alookup] at h
      subst h
      simp only [aset, if_pos rfl]
      exact List.Forall₂.cons ⟨rfl, rfl, hsub⟩ (forall2_slotShrinks_refl rest)
    · simp [alookup, h0] at h
      simp only [aset, if_neg h0]
      exact List.Forall₂.cons ⟨rfl, rfl, List.Sublist.refl _⟩ (ih h)

theorem forall2_mem_right {s s' : List (String × EventInfo)}
    (h : List.Forall₂ SlotShrinks s s') {q : String × EventInfo}
    (hq : q ∈ s') : ∃ p ∈ s, SlotShrinks p q := by
  induction h with
  | nil => simp at hq
  | cons hpq hrest ih =>
    rcases List.mem_cons.mp hq with h' | h'
    · subst h'
      exact ⟨_, List.mem_cons_self _ _, hpq⟩
    · obtain ⟨p, hp, hsl⟩ := ih h'
      exact ⟨p, List.mem_cons_of_mem _ hp, hsl⟩

theorem boundInv_of_shrinks {em em' : EventEmitter} (hb : BoundInv em)
    (hs : Shrinks em em') : BoundInv em' := by
  intro q hq
  obtain ⟨p, hp, hsl⟩ := forall2_mem_right hs.2 hq
  have h1 := hb p hp
  have h2 := hsl.2.2.length_le
  rw [hsl.2.1]
  omega

theorem setListeners_shrinks {em : EventEmitter} {n : String} {ev : EventInfo}
    {L : List ListenerInfo} (hev : alookup em.slots n = some ev)
    (hsub : List.Sublist L ev.listeners) :
    Shrinks em (setListeners em n L) := by
  unfold setListeners
  rw [hev]
  exact ⟨rfl, forall2_aset_shrinks em.slots n ev L hev hsub⟩

theorem alookup_setListeners_ne (em : EventEmitter) (n : String)
    (L : List ListenerInfo) (n' : String) (h : n' ≠ n) :
    alookup (setListeners em n L).slots n' = alookup em.slots n' := by
  unfold setListeners
  cases hev : alookup em.slots n with
  | none => rfl
  | some ev => simp [alookup_aset_ne _ _ _ _ h]

theorem emitErrLoop_state (em : EventEmitter) (args : List Nat) (intr : Bool) :
    ∀ (rest kept : List ListenerInfo) (trace : List InvRec),
      ∃ L, (emitErrLoop em args intr kept rest trace).1 =
        setListeners em "error" L ∧ List.Sublist L (kept ++ rest) := by
  intro rest
  induction rest with
  | nil =>
    intro kept trace
    exact ⟨kept, rfl, by simp⟩
  | cons li rest ih =>
    intro kept trace
    have hstep : List.Sublist ((if li.once then kept else kept ++ [li]) ++ rest)
        (kept ++ li :: rest) := by
      cases li.once
      · have heq : (kept ++ [li]) ++ rest = kept ++ li :: rest := by simp
        simp only [if_neg Bool.false_ne_true, heq]
        exact List.Sublist.refl _
      · simp only [if_pos rfl]
        exact List.Sublist.append_left (List.sublist_cons_self _ _) kept
    cases hb : li.callback.behavior with
    | ret rf =>
      by_cases hi : (intr && rf) = true
      · exact ⟨(if li.once then kept else kept ++ [li]) ++ rest,
          by simp [emitErrLoop, hb, hi], hstep⟩
      · obtain ⟨L, hL, hsub⟩ := ih (if li.once then kept else kept ++ [li])
          (trace ++ [invRec "error" args li])
        exact ⟨L, by simp [emitErrLoop, hb, hi, hL], hsub.trans hstep⟩
    | thrw e =>
      exact ⟨(if li.once then kept else kept ++ [li]) ++ rest,
        by simp [emitErrLoop, hb], hstep⟩

theorem emitErr_shrinks (em : EventEmitter) (args : List Nat) :
    Shrinks em (emitErr em args).1 := by
  unfold emitErr
  cases hev : alookup em.slots "error" with
  | none => exact shrinks_refl em
  | some ev =>
    by_cases he : ev.listeners.isEmpty
    · simp only [he, if_true]
      exact shrinks_refl em
    · simp only [he, Bool.false_eq_true, if_false]
      obtain ⟨L, hL, hsub⟩ := emitErrLoop_state em args ev.config.interruptable
        ev.listeners [] []
      rw [hL]
      exact setListeners_shrinks hev (by simpa using hsub)

theorem emitErr_other (em : EventEmitter) (args : List Nat) (n : String)
    (h : n ≠ "error") :
    alookup (emitErr em args).1.slots n = alookup em.slots n := by
  unfold emitErr
  cases hev : alookup em.slots "error" with
  | none => rfl
  | some ev =>
    by_cases he : ev.listeners.isEmpty
    · simp only [he, if_true]
    · simp only [he, Bool.false_eq_true, if_false]
      obtain ⟨L, hL, _⟩ := emitErrLoop_state em args ev.config.interruptable
        ev.listeners [] []
      rw [hL]
      exact alookup_setListeners_ne em "error" L n h

theorem emitLoop_state (event : String) (args : List Nat) (intr cont : Bool)
    (_hne : event ≠ "error") :
    ∀ (rest : List ListenerInfo) (em : EventEmitter) (kept : List ListenerInfo)
      (trace : List InvRec),
      ∃ em2 L, (emitLoop em event args intr cont kept rest trace).1 =
          setListeners em2 event L ∧ Shrinks em em2 ∧
        (∀ n, n ≠ "error" → alookup em2.slots n = alookup em.slots n) ∧
        List.Sublist L (kept ++ rest) := by
  intro rest
  induction rest with
  | nil =>
    intro em kept trace
    exact ⟨em, kept, rfl, shrinks_refl em, fun n _ => rfl, by simp⟩
  | cons li rest ih =>
    intro em kept trace
    have hstep : List.Sublist ((if li.once then kept else kept ++ [li]) ++ rest)
        (kept ++ li :: rest) := by
      cases li.once
      · have heq : (kept ++ [li]) ++ rest = kept ++ li :: rest := by simp
        simp only [if_neg Bool.false_ne_true, heq]
        exact List.Sublist.refl _
      · simp only [if_pos rfl]
        exact List.Sublist.append_left (List.sublist_cons_self _ _) kept
    cases hb : li.callback.behavior with
    | ret rf =>
      by_cases hi : (intr && rf) = true
      · exact ⟨em, (if li.once then kept else kept ++ [li]) ++ rest,
          by simp [emitLoop, hb, hi], shrinks_refl em, fun n _ => rfl, hstep⟩
      · obtain ⟨em2, L, hL, hs, ho, hsub⟩ := ih em
          (if li.once then kept else kept ++ [li])
          (trace ++ [invRec event args li])
        exact ⟨em2, L, by simp [emitLoop, hb, hi, hL], hs, ho, hsub.trans hstep⟩
    | thrw e =>
      rcases hee : emitErr em [e] with ⟨emA, trA, resA⟩
      have hsA : Shrinks em emA := by
        have h := emitErr_shrinks em [e]
        rw [hee] at h
        exact h
      have hoA : ∀ n, n ≠ "error" → alookup emA.slots n = alookup em.slots n := by
        intro n hn
        have h := emitErr_other em [e] n hn
        rw [hee] at h
        exact h
      cases resA with
      | error e2 =>
        exact ⟨emA, (if li.once then kept else kept ++ [li]) ++ rest,
          by simp [emitLoop, hb, hee], hsA, hoA, hstep⟩
      | ok b =>
        cases hc : cont with
        | false =>
          exact ⟨emA, (if li.once then kept else kept ++ [li]) ++ rest,
            by simp [emitLoop, hb, hee, hc], hsA, hoA, hstep⟩
        | true =>
          obtain ⟨em2, L, hL, hs2, ho2, hsub⟩ := ih emA
            (if li.once then kept else kept ++ [li])
            (trace ++ invRec event args li :: trA)
          rw [hc] at hL
          refine ⟨em2, L, by simp [emitLoop, hb, hee, hc, hL],
            shrinks_trans hsA hs2, ?_, hsub.trans hstep⟩
          intro n hn
          rw [ho2 n hn, hoA n hn]

theorem add_preserves_bound (em : EventEmitter) (event : String) (cb : Cb)
    (o : Bool) (hb : BoundInv em) : BoundInv (em.add event cb o).1 := by
  cases hev : alookup em.slots event with
  | some ev =>
    by_cases hl : ev.config.maxListeners = ev.listeners.length
    · have h1 : (em.add event cb o).1 = em := by
        unfold EventEmitter.add
        simp [hev, hl]
      rw [h1]
      exact hb
    · have h1 : (em.add event cb o).1 = { em with slots := aset em.slots event ({ ev with listeners := ev.listeners ++ [⟨cb, o⟩] }) } := by
        unfold EventEmitter.add
        simp [hev, hl]
      rw [h1]
      intro p hp
      rcases mem_aset hp with h | h
      · subst h
        have hle : ev.listeners.length ≤ ev.config.maxListeners :=
          hb _ (alookup_mem hev)
        have hne : ev.listeners.length ≠ ev.config.maxListeners :=
          fun hh => hl hh.symm
        simp only [List.length_append, List.length_cons, List.length_nil]
        omega
      · exact hb p h
  | none =>
    by_cases h0 : em.config.maxListeners = 0
    · have h1 : (em.add event cb o).1 = { em with slots := aset em.slots event ⟨em.config, []⟩ } := by
        unfold EventEmitter.add
        simp [hev, h0]
      rw [h1]
      intro p hp
      rcases mem_aset hp with h | h
      · subst h
        simp
      · exact hb p h
    · have h1 : (em.add event cb o).1 = { em with slots := aset (aset em.slots event ⟨em.config, []⟩) event ⟨em.config, [⟨cb, o⟩]⟩ } := by
        unfold EventEmitter.add
        simp [hev, h0]
      rw [h1]
      intro p hp
      rcases mem_aset hp with h | h
      · subst h
        simp only [List.length_cons, List.length_nil]
        omega
      · rcases mem_aset h with h' | h'
        · subst h'
          simp
        · exact hb p h'

theorem off_preserves_bound (em : EventEmitter) (event : String)
    (cb : Option Cb) (hb : BoundInv em) : BoundInv (em.off event cb).1 := by
  cases hev : alookup em.slots event with
  | none =>
    have h1 : (em.off event cb).1 = em := by
      unfold EventEmitter.off
      simp [hev]
    rw [h1]
    exact hb
  | some ev =>
    have h1 : (em.off event cb).1 = { em with slots := aset em.slots event ({ ev with listeners := [] }) } := by
      unfold EventEmitter.off
      simp [hev]
    rw [h1]
    intro p hp
    rcases mem_aset hp with h | h
    · subst h
      simp
    · exact hb p h

theorem emit_preserves_bound (em : EventEmitter) (event : String)
    (args : List Nat) (hb : BoundInv em) :
    BoundInv (em.emit event args).1 := by
  by_cases hE : event = "error"
  · have h1 : (em.emit event args).1 = (emitErr em args).1 := by
      unfold EventEmitter.emit
      rw [if_pos hE]
    rw [h1]
    exact boundInv_of_shrinks hb (emitErr_shrinks em args)
  · cases hev : alookup em.slots event with
    | none =>
      have h1 : (em.emit event args).1 = em := by
        unfold EventEmitter.emit
        rw [if_neg hE]
        simp [hev]
      rw [h1]
      exact hb
    | some ev =>
      by_cases he : ev.listeners.isEmpty
      · have h1 : (em.emit event args).1 = em := by
          unfold EventEmitter.emit
          rw [if_neg hE]
          simp [hev, he]
        rw [h1]
        exact hb
      · have h1 : (em.emit event args).1 =
            (emitLoop em event args ev.config.interruptable
              ev.config.continueOnError [] ev.listeners []).1 := by
          unfold EventEmitter.emit
          rw [if_neg hE]
          simp [hev, he]
        rw [h1]
        obtain ⟨em2, L, hL, hs, ho, hsub⟩ := emitLoop_state event args
          ev.config.interruptable ev.config.continueOnError hE
          ev.listeners em [] []
        rw [hL]
        have hev2 : alookup em2.slots event = some ev := by
          rw [ho event hE]
          exact hev
        exact boundInv_of_shrinks (boundInv_of_shrinks hb hs)
          (setListeners_shrinks hev2 (by simpa using hsub))

/-- C2 (amended): the listener-count bound `listeners.length ≤
config.maxListeners` is preserved by `on`, `once` (hence their aliases),
`off`, `emit`, and the global `configEvent` overload, and an `on`/`once` call
finding the record exactly at its bound fails hard with
`E_EXCEED_MAX_LISTENERS` rather than silently dropping; the per-event
`configEvent` overload, however, is NOT bound-preserving — it can lower
`maxListeners` below the current listener count. -/
theorem C2_bound_preservation (em : EventEmitter) (event : String) (cb : Cb)
    (callback : Option Cb) (args : List Nat) (p : PartialConfiguration)
    (hb : BoundInv em) :
    BoundInv (em.on event cb).1 ∧
    BoundInv (em.once event cb).1 ∧
    BoundInv (em.off event callback).1 ∧
    BoundInv (em.emit event args).1 ∧
    BoundInv (em.configEventGlobal p) ∧
    (∀ ev, alookup em.slots event = some ev →
      ev.listeners.length = ev.config.maxListeners →
      (em.on event cb).2 = some EventsError.E_EXCEED_MAX_LISTENERS ∧
      (em.once event cb).2 = some EventsError.E_EXCEED_MAX_LISTENERS) := by
  refine ⟨add_preserves_bound em event cb false hb,
    add_preserves_bound em event cb true hb,
    off_preserves_bound em event callback hb,
    emit_preserves_bound em event args hb,
    ?_, ?_⟩
  · intro q hq
    exact hb q hq
  · intro ev hev hlen
    have key : ∀ o : Bool, (em.add event cb o).2 =
        some EventsError.E_EXCEED_MAX_LISTENERS := by
      intro o
      unfold EventEmitter.add
      simp [hev, hlen.symm]
    exact ⟨key false, key true⟩

/-- C2 witness: the preservation theorem applied to an emitter whose `"x"`
record sits exactly at its (zero) bound, with the limit-failure hypotheses
discharged as well. -/
theorem C2_witness :
    BoundInv ((emCap0.on "x" cbA).1) ∧
    BoundInv ((emCap0.once "x" cbA).1) ∧
    BoundInv ((emCap0.off "x" none).1) ∧
    BoundInv ((emCap0.emit "x" []).1) ∧
    BoundInv (emCap0.configEventGlobal ⟨none, none, some 5⟩) ∧
    ((emCap0.on "x" cbA).2 = some EventsError.E_EXCEED_MAX_LISTENERS ∧
     (emCap0.once "x" cbA).2 = some EventsError.E_EXCEED_MAX_LISTENERS) := by
  have main := C2_bound_preservation emCap0 "x" cbA none []
    ⟨none, none, some 5⟩ (by unfold BoundInv; decide)
  exact ⟨main.1, main.2.1, main.2.2.1, main.2.2.2.1, main.2.2.2.2.1,
    main.2.2.2.2.2
      ⟨{ interruptable := false, continueOnError := false, maxListeners := 0 }, []⟩
      (by rfl) (by rfl)⟩

/-- C2 counterexample: two listeners are registered on `"x"` (bound holds),
then the per-event `configEvent` overload lowers `maxListeners` to 1: the
record now has 2 listeners with a bound of 1, so `configEvent` does not
preserve the invariant — and a further `on` call even succeeds (the equality
guard no longer fires), pushing the count to 3. -/
theorem C2_counterexample :
    BoundInv emTwo ∧
    ¬ BoundInv emTwoCapped ∧
    (emTwoCapped.on "x" cbThrow7).2 = none ∧
    ¬ BoundInv ((emTwoCapped.on "x" cbThrow7).1) := by
  refine ⟨?_, ?_, rfl, ?_⟩
  · unfold BoundInv
    decide
  · unfold BoundInv
    decide
  · unfold BoundInv
    decide

end Obs
